import Mathlib

/-!
Verification development for the Nyaa RSS watcher (rss_watcher.py).

The script polls an RSS feed, deduplicates entries against a persistent
`seen` dictionary (key -> unix timestamp), applies configurable filters,
sends Telegram notifications, and prunes the store when it grows past
2000 keys (keeping the 1200 most recent).

This file is a shallow embedding of the pure core of that script:
  - `entry_field`, `key_for`, `passes_filters` are translated line by line
    from the source;
  - `processEntry` / `fetch_new` model the body of the `fetch_new`
    coroutine: the reversed iteration over feed entries, the
    skip / filter / notify / record sequence, the try-except placement
    (only `notify` and the record lines are inside the try), and the
    post-loop prune `if len(seen) > 2000: keep newest 1200`;
  - network and Telegram transport effects are modelled by an oracle
    `oracle : Entry → Bool` saying whether `bot.send_message` succeeds
    for a given entry; `time.time()` is modelled by a strictly increasing
    natural-number clock threaded through the cycle state.
-/

/-- A feed entry as seen through `entry_field`: every field the script
reads is an optional string (`none` models a field absent from the
feedparser entry; `some ""` models a present-but-empty field). -/
structure Entry where
  id : Option String := none
  guid : Option String := none
  link : Option String := none
  title : Option String := none
  published : Option String := none
  description : Option String := none
  nyaa_infohash : Option String := none
  nyaa_seeders : Option String := none
  nyaa_trusted : Option String := none
  nyaa_remake : Option String := none
  deriving DecidableEq, Repr

/-- The filter configuration read from the environment at startup
(ONLY_TRUSTED, SKIP_REMAKES, MIN_SEEDERS, TITLE_KEYWORDS and the three
multi flags). -/
structure FilterConfig where
  onlyTrusted : Bool
  skipRemakes : Bool
  minSeeders : Int
  titleKeywords : List String
  requireMultiSubs : Bool
  requireMultiAudio : Bool
  requireAnyMulti : Bool
  deriving DecidableEq, Repr

/-- `entry_field(e, name, default)` from the source:
`getattr(e, name, None) or e.get(name, default)`.  On a feedparser entry
attribute and key access coincide, so a present field is returned as-is
(even when it is the empty string: the falsy `getattr` result falls
through to `e.get`, which returns the stored value, not the default) and
the default is used only when the field is absent. -/
def entry_field (v : Option String) (default : Option String) : Option String :=
  match v with
  | some s => some s
  | none => default

/-- A field read with a plain string default, as in
`entry_field(e, "title", "") or ""`. -/
def strField (v : Option String) (d : String) : String :=
  (entry_field v (some d)).getD d

def titleOf (e : Entry) : String := strField e.title ""
def publishedOf (e : Entry) : String := strField e.published ""
def trustedOf (e : Entry) : String := strField e.nyaa_trusted "No"
def remakeOf (e : Entry) : String := strField e.nyaa_remake "No"

/-- `entry_field(e, "nyaa_infohash", "") or ""`, the value `notify` tests
before building a magnet link and `key_for` uses as second fallback. -/
def infohashOf (e : Entry) : String := strField e.nyaa_infohash ""

/-- Digits of a decimal numeral folded into a value; `none` on the first
non-digit character. -/
def digitsVal : List Char → Nat → Option Nat
  | [], acc => some acc
  | c :: cs, acc =>
    if c.isDigit then digitsVal cs (acc * 10 + (c.toNat - 48)) else none

/-- Leading and trailing whitespace removed, as `int()` does before
parsing. -/
def pyStrip (cs : List Char) : List Char :=
  ((cs.dropWhile Char.isWhitespace).reverse.dropWhile Char.isWhitespace).reverse

/-- Python `int(s)` on a string: optional surrounding whitespace, an
optional sign, then at least one decimal digit; `none` models the
`ValueError` raised on any other shape (underscore separators and
non-ASCII digits, which Python also accepts, are not modelled; no claim
depends on them). -/
def pyInt? (s : String) : Option Int :=
  match pyStrip s.data with
  | [] => none
  | '-' :: ds =>
    if ds.isEmpty then none else (digitsVal ds 0).map (fun n => -(n : Int))
  | '+' :: ds =>
    if ds.isEmpty then none else (digitsVal ds 0).map (fun n => (n : Int))
  | ds => (digitsVal ds 0).map (fun n => (n : Int))

/-- `int(entry_field(e, "nyaa_seeders", "0") or 0)` from `passes_filters`:
an absent field parses as 0, a present empty field short-circuits to
`int(0)`, and any other string goes through `int`, whose `ValueError`
(`Except.error`) propagates out of `passes_filters` uncaught. -/
def seedersOf (e : Entry) : Except Unit Int :=
  let v := strField e.nyaa_seeders "0"
  if v = "" then .ok 0
  else
    match pyInt? v with
    | some n => .ok n
    | none => .error ()

/-- `pre` is the char list of a prefix of the second list. -/
def leadsWith : List Char → List Char → Bool
  | [], _ => true
  | _ :: _, [] => false
  | a :: as, b :: bs => a = b && leadsWith as bs

/-- `needle` occurs as a contiguous sublist of `hay`. -/
def occursIn (needle : List Char) : List Char → Bool
  | [] => leadsWith needle []
  | h :: t => leadsWith needle (h :: t) || occursIn needle t

/-- `TITLE_REGEX.search(title)`: the regex is the union of the re.escaped
keywords compiled with re.I, so it matches exactly when some keyword is a
case-insensitive substring of the title. -/
def titleHit (kws : List String) (title : String) : Bool :=
  kws.any (fun k => occursIn k.toLower.data title.toLower.data)

/-- `passes_filters(e)` from the source, line by line.  `det` models
`has_multisubs_or_multiaudio`, the pure regex match of MULTISUB_RE and
MULTIAUD_RE over title and description (no claim depends on the pattern
sets themselves, so the detector is a parameter).  `skip_log` returns
False, hence `.ok false` on every rejecting branch; the `int` call on the
seeders string may raise, which is the only escaping exception. -/
def passes_filters (cfg : FilterConfig) (det : Entry → Bool × Bool) (e : Entry) :
    Except Unit Bool :=
  if cfg.onlyTrusted ∧ trustedOf e ≠ "Yes" then .ok false
  else if cfg.skipRemakes ∧ remakeOf e = "Yes" then .ok false
  else
    match seedersOf e with
    | .error u => .error u
    | .ok seeders =>
      if seeders < cfg.minSeeders then .ok false
      else if cfg.titleKeywords ≠ [] ∧ titleHit cfg.titleKeywords (titleOf e) = false then
        .ok false
      else if cfg.requireMultiSubs ∨ cfg.requireMultiAudio ∨ cfg.requireAnyMulti then
        if cfg.requireMultiSubs ∧ (det e).1 = false then .ok false
        else if cfg.requireMultiAudio ∧ (det e).2 = false then .ok false
        else if cfg.requireAnyMulti ∧ ((det e).1 || (det e).2) = false then .ok false
        else .ok true
      else .ok true

/-- `key_for(e)` first computes
`guid = entry_field(e, "id", entry_field(e, "guid", entry_field(e, "link", ""))) or ""`. -/
def guidPart (e : Entry) : String :=
  (entry_field e.id (entry_field e.guid (entry_field e.link (some "")))).getD ""

/-- `key_for(e)`: `guid or infohash or (title + "|" + published)`, with
Python truthiness on strings (nonempty). -/
def key_for (e : Entry) : String :=
  if guidPart e ≠ "" then guidPart e
  else if infohashOf e ≠ "" then infohashOf e
  else titleOf e ++ "|" ++ publishedOf e

/-- Outcome of `notify(bot, chat_id, e)`: when the entry has no infohash
the coroutine prints a skip line and returns normally without sending
(`.ok false`); otherwise it sends one message, which either succeeds
(`.ok true`) or raises a transport error (`.error ()`), decided by the
`oracle`. -/
def notifyResult (oracle : Entry → Bool) (e : Entry) : Except Unit Bool :=
  if infohashOf e = "" then .ok false
  else if oracle e then .ok true else .error ()

/-- The mutable state of one `fetch_new` cycle: the `seen` dict in
insertion order, the clock standing in for `time.time()` (each call
returns the current value and the clock then advances, modelling strictly
increasing wall time), the list of entries for which a message was
actually sent, the `new_count` counter, and whether an uncaught exception
has escaped the per-entry loop. -/
structure CycleState where
  seen : List (String × Nat)
  clock : Nat
  sent : List Entry
  newCount : Nat
  aborted : Bool
  deriving DecidableEq, Repr

def initState (seen : List (String × Nat)) (clock : Nat) : CycleState :=
  { seen := seen, clock := clock, sent := [], newCount := 0, aborted := false }

/-- Keys of the seen dict, in insertion order. -/
def keys (l : List (String × Nat)) : List String := l.map Prod.fst

/-- The state after `seen[k] = time.time(); new_count += 1` following a
`notify` call that returned normally (`b` records whether a message was
actually sent, which is false for infohash-less entries). -/
def recordState (s : CycleState) (k : String) (e : Entry) (b : Bool) : CycleState :=
  { s with seen := s.seen ++ [(k, s.clock)], clock := s.clock + 1,
           sent := s.sent ++ (if b then [e] else []), newCount := s.newCount + 1 }

/-- One iteration of the `for e in reversed(entries)` loop.  The guards
`if not k or k in seen: continue` and `if not passes_filters(e): continue`
run outside the try block, so an exception from `passes_filters` (a
non-numeric seeders string) escapes the loop: we mark the state aborted
and every later iteration is a no-op.  Only `notify` failures are caught
and logged, leaving the state untouched. -/
def processEntry (cfg : FilterConfig) (det : Entry → Bool × Bool) (oracle : Entry → Bool)
    (s : CycleState) (e : Entry) : CycleState :=
  if s.aborted then s
  else if key_for e = "" ∨ key_for e ∈ keys s.seen then s
  else
    match passes_filters cfg det e with
    | .error _ => { s with aborted := true }
    | .ok false => s
    | .ok true =>
      match notifyResult oracle e with
      | .error _ => s
      | .ok b => recordState s (key_for e) e b

/-- Stable insertion into a list sorted by timestamp descending: the new
pair goes in front of the first strictly smaller timestamp, after any
equal one, matching the tie behaviour of Python sorted with
`reverse=True`. -/
def insertTS (x : String × Nat) : List (String × Nat) → List (String × Nat)
  | [] => [x]
  | y :: ys => if y.2 ≤ x.2 then x :: y :: ys else y :: insertTS x ys

/-- `sorted(seen.items(), key=lambda kv: kv[1], reverse=True)`: a stable
sort by timestamp descending (Python sorted is stable; any stable
descending sort computes the same list). -/
def sortDesc : List (String × Nat) → List (String × Nat)
  | [] => []
  | h :: t => insertTS h (sortDesc t)

/-- `dict(sorted(seen.items(), key=lambda kv: kv[1], reverse=True)[:1200])`:
keys are unique, so the dict is just the truncated sorted list. -/
def pruneSeen (l : List (String × Nat)) : List (String × Nat) :=
  (sortDesc l).take 1200

/-- The tail of `fetch_new` after the loop:
`if len(seen) > 2000: seen = newest 1200`.  Not reached when the loop
raised (the exception propagates to `poll_loop` first). -/
def afterLoop (s : CycleState) : CycleState :=
  if s.aborted then s
  else if s.seen.length > 2000 then { s with seen := pruneSeen s.seen } else s

/-- `fetch_new(bot, chat_id, seen)` for one already-fetched entry list:
iterate the entries in reverse feed order, then prune. -/
def fetch_new (cfg : FilterConfig) (det : Entry → Bool × Bool) (oracle : Entry → Bool)
    (entries : List Entry) (seen : List (String × Nat)) (clock : Nat) : CycleState :=
  afterLoop (entries.reverse.foldl (processEntry cfg det oracle) (initState seen clock))

/-- `poll_loop` persists the store after a cycle only when `fetch_new`
returned normally (no escaped exception) and `if new_n:` held, i.e.
`new_count` is nonzero. -/
def persistsAfter (s : CycleState) : Bool :=
  !s.aborted && decide (s.newCount ≠ 0)

/-- The configuration with every filter off: ONLY_TRUSTED, SKIP_REMAKES
and the multi flags at their false defaults, MIN_SEEDERS 0, no
TITLE_KEYWORDS. -/
def defaultConfig : FilterConfig :=
  { onlyTrusted := false, skipRemakes := false, minSeeders := 0, titleKeywords := [],
    requireMultiSubs := false, requireMultiAudio := false, requireAnyMulti := false }

/-- Multi-subs and multi-audio detector reporting no match, for concrete
runs where the multi filters are off. -/
def det0 : Entry → Bool × Bool := fun _ => (false, false)

/-- Transport oracle where every send succeeds. -/
def orTrue : Entry → Bool := fun _ => true

/-- Transport oracle where every send raises. -/
def orFalse : Entry → Bool := fun _ => false

/-! Concrete fixtures used by witnesses and counterexamples. -/

/-- An accepted, sendable entry. -/
def eG : Entry := { id := some "g", nyaa_infohash := some "h" }

/-- An entry whose seeders field parses to a negative number. -/
def eNeg : Entry := { id := some "n", nyaa_seeders := some "-1" }

/-- An entry whose seeders field does not parse: `int("x")` raises. -/
def eBadS : Entry := { id := some "b", nyaa_seeders := some "x" }

/-- An entry with a key but no infohash. -/
def eNoHash : Entry := { id := some "q", title := some "t" }

/-- An entry with no id and no guid, but a link and an infohash. -/
def eLink : Entry := { link := some "https://x/page", nyaa_infohash := some "deadbeef" }

/-- An entry carrying a feed id. -/
def eIdW : Entry := { id := some "gid123" }

/-- An entry whose seeders field parses to 7. -/
def eSeven : Entry := { id := some "s", nyaa_seeders := some "7" }

/-- Entries published at times 1 < 2 < 3; title length doubles as a
publish-time measure (1, 2, 3). -/
def eA : Entry := { id := some "a", title := some "a", published := some "1", nyaa_infohash := some "h" }

def eB : Entry := { id := some "b", title := some "bb", published := some "2", nyaa_infohash := some "h" }

def eC : Entry := { id := some "c", title := some "ccc", published := some "3", nyaa_infohash := some "h" }

/-- Pairwise-distinct store keys for large concrete stores: the string of
`n` letters a.  Distinctness is proved through the length of the
underlying character list, so no large string ever has to be evaluated. -/
def natKey (n : Nat) : String := String.mk (List.replicate n 'a')

/-- A fresh entry whose key (`natKey 5000`) is in none of the stores
below. -/
def eNew : Entry := { id := some (natKey 5000), nyaa_infohash := some "h" }

/-- A store holding exactly 2000 keys, every timestamp below 2000. -/
def capStore : List (String × Nat) := (List.range 2000).map (fun i => (natKey i, i))

/-- A store holding exactly 2000 keys, every timestamp at least 3001. -/
def bigStore : List (String × Nat) := (List.range 2000).map (fun i => (natKey i, 5000 - i))

/-- A store holding 2001 keys, as an oversized seen file would load. -/
def overStore : List (String × Nat) := (List.range 2001).map (fun i => (natKey i, 5000 - i))

/-! Facts about the stable descending sort. -/

theorem insertTS_length (x : String × Nat) (l : List (String × Nat)) :
    (insertTS x l).length = l.length + 1 := by
  induction l with
  | nil => rfl
  | cons y ys ih =>
    simp only [insertTS]
    split <;> simp [ih]

theorem sortDesc_length (l : List (String × Nat)) :
    (sortDesc l).length = l.length := by
  induction l with
  | nil => rfl
  | cons h t ih => simp [sortDesc, insertTS_length, ih]

theorem mem_insertTS {p x : String × Nat} {l : List (String × Nat)} :
    p ∈ insertTS x l ↔ p = x ∨ p ∈ l := by
  induction l with
  | nil => simp [insertTS]
  | cons y ys ih =>
    simp only [insertTS]
    split
    · simp
    · simp only [List.mem_cons, ih]
      tauto

theorem mem_sortDesc {p : String × Nat} {l : List (String × Nat)} :
    p ∈ sortDesc l ↔ p ∈ l := by
  induction l with
  | nil => exact Iff.rfl
  | cons h t ih => simp [sortDesc, mem_insertTS, ih]

theorem insertTS_append_min {x a : String × Nat} (h : x.2 < a.2) :
    ∀ m, insertTS a (m ++ [x]) = insertTS a m ++ [x] := by
  intro m
  induction m with
  | nil => simp [insertTS, Nat.le_of_lt h]
  | cons y ys ih =>
    simp only [List.cons_append, insertTS]
    split <;> simp [ih]

theorem sortDesc_cons_max {x : String × Nat} {l : List (String × Nat)}
    (h : ∀ p ∈ l, p.2 < x.2) : sortDesc (l ++ [x]) = x :: sortDesc l := by
  induction l with
  | nil => rfl
  | cons a l ih =>
    have ha : a.2 < x.2 := h a (by simp)
    have ih' := ih (fun p hp => h p (List.mem_cons_of_mem a hp))
    show insertTS a (sortDesc (l ++ [x])) = x :: insertTS a (sortDesc l)
    rw [ih']
    simp only [insertTS]
    rw [if_neg (Nat.not_le.mpr ha)]

theorem sortDesc_append_min {x : String × Nat} {l : List (String × Nat)}
    (h : ∀ p ∈ l, x.2 < p.2) : sortDesc (l ++ [x]) = sortDesc l ++ [x] := by
  induction l with
  | nil => rfl
  | cons a l ih =>
    have ha : x.2 < a.2 := h a (by simp)
    have ih' := ih (fun p hp => h p (List.mem_cons_of_mem a hp))
    show insertTS a (sortDesc (l ++ [x])) = insertTS a (sortDesc l) ++ [x]
    rw [ih', insertTS_append_min ha]

/-! Characterization of one iteration of the entry loop. -/

theorem step_aborted {cfg : FilterConfig} {det : Entry → Bool × Bool} {oracle : Entry → Bool}
    {s : CycleState} (h : s.aborted = true) (e : Entry) :
    processEntry cfg det oracle s e = s := by
  simp [processEntry, h]

theorem step_skip_empty {cfg : FilterConfig} {det : Entry → Bool × Bool} {oracle : Entry → Bool}
    {s : CycleState} (hs : s.aborted = false) {e : Entry} (h : key_for e = "") :
    processEntry cfg det oracle s e = s := by
  simp [processEntry, hs, h]

theorem step_skip_seen {cfg : FilterConfig} {det : Entry → Bool × Bool} {oracle : Entry → Bool}
    {s : CycleState} (hs : s.aborted = false) {e : Entry} (h : key_for e ∈ keys s.seen) :
    processEntry cfg det oracle s e = s := by
  simp [processEntry, hs, h]

theorem step_reject {cfg : FilterConfig} {det : Entry → Bool × Bool} {oracle : Entry → Bool}
    {s : CycleState} (hs : s.aborted = false) {e : Entry} (hk : key_for e ≠ "")
    (hm : key_for e ∉ keys s.seen) (hf : passes_filters cfg det e = .ok false) :
    processEntry cfg det oracle s e = s := by
  simp [processEntry, hs, hk, hm, hf]

theorem step_filter_err {cfg : FilterConfig} {det : Entry → Bool × Bool} {oracle : Entry → Bool}
    {s : CycleState} (hs : s.aborted = false) {e : Entry} (hk : key_for e ≠ "")
    (hm : key_for e ∉ keys s.seen) (hf : passes_filters cfg det e = .error ()) :
    processEntry cfg det oracle s e = { s with aborted := true } := by
  simp [processEntry, hs, hk, hm, hf]

theorem step_notify_err {cfg : FilterConfig} {det : Entry → Bool × Bool} {oracle : Entry → Bool}
    {s : CycleState} (hs : s.aborted = false) {e : Entry} (hk : key_for e ≠ "")
    (hm : key_for e ∉ keys s.seen) (hf : passes_filters cfg det e = .ok true)
    (hn : notifyResult oracle e = .error ()) :
    processEntry cfg det oracle s e = s := by
  simp [processEntry, hs, hk, hm, hf, hn]

theorem step_record {cfg : FilterConfig} {det : Entry → Bool × Bool} {oracle : Entry → Bool}
    {s : CycleState} (hs : s.aborted = false) {e : Entry} (hk : key_for e ≠ "")
    (hm : key_for e ∉ keys s.seen) (hf : passes_filters cfg det e = .ok true)
    {b : Bool} (hn : notifyResult oracle e = .ok b) :
    processEntry cfg det oracle s e = recordState s (key_for e) e b := by
  simp [processEntry, hs, hk, hm, hf, hn]

theorem notifyResult_orTrue (e : Entry) : ∃ b, notifyResult orTrue e = .ok b := by
  unfold notifyResult orTrue
  split
  · exact ⟨false, rfl⟩
  · exact ⟨true, rfl⟩

theorem notify_ok_true_hash {oracle : Entry → Bool} {e : Entry}
    (h : notifyResult oracle e = .ok true) : infohashOf e ≠ "" := by
  intro hh
  simp [notifyResult, hh] at h

/-- Every loop iteration either leaves the state unchanged, aborts the
cycle, or records the entry key (sending a message exactly when the entry
has an infohash and the transport succeeds). -/
theorem step_shape (cfg : FilterConfig) (det : Entry → Bool × Bool) (oracle : Entry → Bool)
    (s : CycleState) (e : Entry) :
    processEntry cfg det oracle s e = s
  ∨ processEntry cfg det oracle s e = { s with aborted := true }
  ∨ ∃ b, processEntry cfg det oracle s e = recordState s (key_for e) e b
       ∧ (b = true → infohashOf e ≠ "") := by
  unfold processEntry
  split
  · exact Or.inl rfl
  · split
    · exact Or.inl rfl
    · split
      · exact Or.inr (Or.inl rfl)
      · exact Or.inl rfl
      · split
        · exact Or.inl rfl
        · rename_i b heq
          exact Or.inr (Or.inr ⟨b, rfl, fun hb => notify_ok_true_hash (hb ▸ heq)⟩)

/-! Facts about the whole entry loop. -/

theorem foldl_of_aborted {cfg : FilterConfig} {det : Entry → Bool × Bool} {oracle : Entry → Bool}
    {s : CycleState} (h : s.aborted = true) (l : List Entry) :
    l.foldl (processEntry cfg det oracle) s = s := by
  induction l with
  | nil => rfl
  | cons e rest ih => rw [List.foldl_cons, step_aborted h]; exact ih

theorem step_keys_mono {cfg : FilterConfig} {det : Entry → Bool × Bool} {oracle : Entry → Bool}
    {s : CycleState} {e : Entry} {k : String} (h : k ∈ keys s.seen) :
    k ∈ keys (processEntry cfg det oracle s e).seen := by
  rcases step_shape cfg det oracle s e with h1 | h1 | ⟨b, h1, _⟩ <;> rw [h1]
  · exact h
  · exact h
  · simp only [recordState, keys, List.map_append]
    exact List.mem_append_left _ h

theorem foldl_keys_mono {cfg : FilterConfig} {det : Entry → Bool × Bool} {oracle : Entry → Bool}
    {k : String} :
    ∀ (l : List Entry) (s : CycleState), k ∈ keys s.seen →
      k ∈ keys (l.foldl (processEntry cfg det oracle) s).seen := by
  intro l
  induction l with
  | nil => exact fun s h => h
  | cons e rest ih =>
    intro s h
    rw [List.foldl_cons]
    exact ih _ (step_keys_mono h)

theorem step_len (cfg : FilterConfig) (det : Entry → Bool × Bool) (oracle : Entry → Bool)
    (s : CycleState) (e : Entry) :
    (processEntry cfg det oracle s e).seen.length ≤ s.seen.length + 1 := by
  rcases step_shape cfg det oracle s e with h1 | h1 | ⟨b, h1, _⟩ <;> rw [h1] <;>
    simp [recordState]

theorem foldl_len (cfg : FilterConfig) (det : Entry → Bool × Bool) (oracle : Entry → Bool) :
    ∀ (l : List Entry) (s : CycleState),
      (l.foldl (processEntry cfg det oracle) s).seen.length ≤ s.seen.length + l.length := by
  intro l
  induction l with
  | nil => intro s; simp
  | cons e rest ih =>
    intro s
    have h1 := ih (processEntry cfg det oracle s e)
    have h2 := step_len cfg det oracle s e
    rw [List.foldl_cons]
    simp only [List.length_cons]
    omega

theorem step_count_shape (cfg : FilterConfig) (det : Entry → Bool × Bool) (oracle : Entry → Bool)
    (s : CycleState) (e : Entry) :
    ((processEntry cfg det oracle s e).newCount = s.newCount
      ∧ (processEntry cfg det oracle s e).seen = s.seen)
  ∨ (processEntry cfg det oracle s e).newCount = s.newCount + 1 := by
  rcases step_shape cfg det oracle s e with h1 | h1 | ⟨b, h1, _⟩ <;> rw [h1]
  · exact Or.inl ⟨rfl, rfl⟩
  · exact Or.inl ⟨rfl, rfl⟩
  · exact Or.inr rfl

theorem foldl_count_mono (cfg : FilterConfig) (det : Entry → Bool × Bool) (oracle : Entry → Bool) :
    ∀ (l : List Entry) (s : CycleState),
      s.newCount ≤ (l.foldl (processEntry cfg det oracle) s).newCount := by
  intro l
  induction l with
  | nil => intro s; exact Nat.le_refl _
  | cons e rest ih =>
    intro s
    rw [List.foldl_cons]
    have h1 := ih (processEntry cfg det oracle s e)
    rcases step_count_shape cfg det oracle s e with ⟨hc, _⟩ | hc <;>
      omega

/-- A loop run that recorded nothing left the seen dict untouched. -/
theorem foldl_count_eq_seen {cfg : FilterConfig} {det : Entry → Bool × Bool}
    {oracle : Entry → Bool} :
    ∀ (l : List Entry) (s : CycleState),
      (l.foldl (processEntry cfg det oracle) s).newCount = s.newCount →
      (l.foldl (processEntry cfg det oracle) s).seen = s.seen := by
  intro l
  induction l with
  | nil => intro s _; rfl
  | cons e rest ih =>
    intro s h
    rw [List.foldl_cons] at h ⊢
    rcases step_count_shape cfg det oracle s e with ⟨hc, hsn⟩ | hc
    · rw [ih _ (by omega : (rest.foldl (processEntry cfg det oracle)
        (processEntry cfg det oracle s e)).newCount = (processEntry cfg det oracle s e).newCount)]
      exact hsn
    · have := foldl_count_mono cfg det oracle rest
        (processEntry cfg det oracle s e)
      omega

theorem step_sent_shape (cfg : FilterConfig) (det : Entry → Bool × Bool) (oracle : Entry → Bool)
    (s : CycleState) (e : Entry) :
    (processEntry cfg det oracle s e).sent = s.sent
  ∨ ((processEntry cfg det oracle s e).sent = s.sent ++ [e] ∧ infohashOf e ≠ "") := by
  rcases step_shape cfg det oracle s e with h1 | h1 | ⟨b, h1, hb⟩ <;> rw [h1]
  · exact Or.inl rfl
  · exact Or.inl rfl
  · cases b with
    | false => exact Or.inl (by simp [recordState])
    | true => exact Or.inr ⟨by simp [recordState], hb rfl⟩

/-- The dispatch sequence of a loop run extends the previous one by a
sublist of the processed entries, in processing order. -/
theorem foldl_sent_sub (cfg : FilterConfig) (det : Entry → Bool × Bool) (oracle : Entry → Bool) :
    ∀ (l : List Entry) (s : CycleState),
      List.Sublist (l.foldl (processEntry cfg det oracle) s).sent (s.sent ++ l) := by
  intro l
  induction l with
  | nil => intro s; simp
  | cons e rest ih =>
    intro s
    rw [List.foldl_cons]
    have h1 := ih (processEntry cfg det oracle s e)
    rcases step_sent_shape cfg det oracle s e with hs | ⟨hs, _⟩ <;>
      rw [hs] at h1
    · exact h1.trans (List.Sublist.append_left (List.sublist_cons_self _ _) _)
    · exact h1.trans (by simp [List.append_assoc])

/-- Everything the loop adds to the dispatch list has an infohash. -/
theorem foldl_sent_hash {cfg : FilterConfig} {det : Entry → Bool × Bool} {oracle : Entry → Bool} :
    ∀ (l : List Entry) (s : CycleState) (x : Entry),
      x ∈ (l.foldl (processEntry cfg det oracle) s).sent → x ∈ s.sent ∨ infohashOf x ≠ "" := by
  intro l
  induction l with
  | nil => intro s x h; exact Or.inl h
  | cons e rest ih =>
    intro s x h
    rw [List.foldl_cons] at h
    rcases ih _ x h with hx | hx
    · rcases step_sent_shape cfg det oracle s e with hs | ⟨hs, he⟩ <;>
        rw [hs] at hx
      · exact Or.inl hx
      · rcases List.mem_append.mp hx with h1 | h1
        · exact Or.inl h1
        · exact Or.inr (by simpa using List.mem_singleton.mp h1 ▸ he)
    · exact Or.inr hx

/-! Facts about the post-loop prune. -/

theorem afterLoop_sent (s : CycleState) : (afterLoop s).sent = s.sent := by
  unfold afterLoop
  split
  · rfl
  · split <;> rfl

theorem afterLoop_newCount (s : CycleState) : (afterLoop s).newCount = s.newCount := by
  unfold afterLoop
  split
  · rfl
  · split <;> rfl

theorem afterLoop_clock (s : CycleState) : (afterLoop s).clock = s.clock := by
  unfold afterLoop
  split
  · rfl
  · split <;> rfl

theorem afterLoop_aborted (s : CycleState) : (afterLoop s).aborted = s.aborted := by
  unfold afterLoop
  split
  · rfl
  · split <;> rfl

theorem afterLoop_no_prune {s : CycleState} (h : s.seen.length ≤ 2000) : afterLoop s = s := by
  unfold afterLoop
  split
  · rfl
  · rw [if_neg (by omega)]

theorem afterLoop_prune {s : CycleState} (ha : s.aborted = false) (h : s.seen.length > 2000) :
    afterLoop s = { s with seen := pruneSeen s.seen } := by
  simp [afterLoop, ha, h]

theorem initState_seen (seen : List (String × Nat)) (clock : Nat) :
    (initState seen clock).seen = seen := rfl

theorem initState_newCount (seen : List (String × Nat)) (clock : Nat) :
    (initState seen clock).newCount = 0 := rfl

theorem setSeen_seen (s : CycleState) (x : List (String × Nat)) :
    ({ s with seen := x } : CycleState).seen = x := rfl

/-- Replay invariance of the loop: run it once from `s`; a second run,
started from any non-aborted state `t` whose key set is exactly the key
set the first run ends with, dispatches nothing (all sends succeed in
both runs, which is the hypothesis of the idempotence claim).  The
second run either skips every entry (blank key, key already seen, or
deterministic filter rejection) or aborts at the same filter error as
the first run did. -/
theorem pass2_silent (cfg : FilterConfig) (det : Entry → Bool × Bool) :
    ∀ (l : List Entry) (s t : CycleState), s.aborted = false → t.aborted = false →
      (∀ k, k ∈ keys t.seen ↔ k ∈ keys (l.foldl (processEntry cfg det orTrue) s).seen) →
      (l.foldl (processEntry cfg det orTrue) t).sent = t.sent := by
  intro l
  induction l with
  | nil => intro s t _ _ _; rfl
  | cons e rest ih =>
    intro s t hs ht hiff
    rw [List.foldl_cons] at hiff ⊢
    by_cases hk : key_for e = ""
    · rw [step_skip_empty ht hk]
      rw [step_skip_empty hs hk] at hiff
      exact ih s t hs ht hiff
    · by_cases hm : key_for e ∈ keys s.seen
      · have hrun : key_for e ∈ keys ((rest.foldl (processEntry cfg det orTrue)
            (processEntry cfg det orTrue s e))).seen :=
          foldl_keys_mono rest _ (step_keys_mono hm)
        have hmt : key_for e ∈ keys t.seen := (hiff _).mpr hrun
        rw [step_skip_seen ht hmt]
        rw [step_skip_seen hs hm] at hiff
        exact ih s t hs ht hiff
      · cases hpf : passes_filters cfg det e with
        | error u =>
          cases u
          rw [step_filter_err hs hk hm hpf] at hiff
          rw [foldl_of_aborted rfl rest] at hiff
          have hmt : key_for e ∉ keys t.seen := fun hc => hm ((hiff _).mp hc)
          rw [step_filter_err ht hk hmt hpf]
          rw [foldl_of_aborted rfl rest]
        | ok b =>
          cases b with
          | false =>
            rw [step_reject hs hk hm hpf] at hiff
            by_cases hmt : key_for e ∈ keys t.seen
            · rw [step_skip_seen ht hmt]
              exact ih s t hs ht hiff
            · rw [step_reject ht hk hmt hpf]
              exact ih s t hs ht hiff
          | true =>
            obtain ⟨b2, hb2⟩ := notifyResult_orTrue e
            rw [step_record hs hk hm hpf hb2] at hiff
            have hks : key_for e ∈ keys (recordState s (key_for e) e b2).seen := by
              simp [recordState, keys]
            have hrun := @foldl_keys_mono cfg det orTrue (key_for e) rest
              (recordState s (key_for e) e b2) hks
            have hmt : key_for e ∈ keys t.seen := (hiff _).mpr hrun
            rw [step_skip_seen ht hmt]
            exact ih (recordState s (key_for e) e b2) t hs ht hiff

/-- A loop over a single fresh, accepted entry whose notify returned
normally: the key is recorded at the current clock. -/
theorem run_single {cfg : FilterConfig} {det : Entry → Bool × Bool} {oracle : Entry → Bool}
    {e : Entry} {seen : List (String × Nat)} {clock : Nat} {b : Bool}
    (hk : key_for e ≠ "") (hm : key_for e ∉ keys seen)
    (hf : passes_filters cfg det e = .ok true)
    (hn : notifyResult oracle e = .ok b) :
    [e].foldl (processEntry cfg det oracle) (initState seen clock)
      = { seen := seen ++ [(key_for e, clock)], clock := clock + 1,
          sent := if b then [e] else [], newCount := 1, aborted := false } := by
  rw [List.foldl_cons, step_record rfl hk hm hf hn]
  rfl

/-- A cycle over one fresh accepted entry against a store of exactly
2000 keys, all of them older than the clock: the store overflows to 2001,
the prune keeps the newest 1200, and the fresh key (being the newest)
heads the pruned store. -/
theorem at_capacity (cfg : FilterConfig) (det : Entry → Bool × Bool) (oracle : Entry → Bool)
    {e : Entry} {seen : List (String × Nat)} {clock : Nat} {b : Bool}
    (h2000 : seen.length = 2000) (hts : ∀ p ∈ seen, p.2 < clock)
    (hk : key_for e ≠ "") (hm : key_for e ∉ keys seen)
    (hf : passes_filters cfg det e = .ok true) (hn : notifyResult oracle e = .ok b) :
    (fetch_new cfg det oracle [e] seen clock).seen
      = (key_for e, clock) :: (sortDesc seen).take 1199 := by
  unfold fetch_new
  rw [show ([e] : List Entry).reverse = [e] from rfl]
  rw [run_single hk hm hf hn]
  rw [afterLoop_prune rfl (by simp [h2000])]
  show pruneSeen (seen ++ [(key_for e, clock)]) = _
  unfold pruneSeen
  rw [sortDesc_cons_max (x := (key_for e, clock)) hts]
  rw [show (1200 : Nat) = 1199 + 1 from rfl, List.take_succ_cons]

/-! Facts about the synthetic store keys. -/

theorem natKey_inj {m n : Nat} (h : natKey m = natKey n) : m = n := by
  have h2 := congrArg (fun s => s.data.length) h
  simpa [natKey] using h2

theorem natKey_ne_empty {n : Nat} (h : 0 < n) : natKey n ≠ "" := by
  intro hc
  have h2 := congrArg (fun s => s.data.length) hc
  simp [natKey] at h2
  omega

theorem key_for_eNew : key_for eNew = natKey 5000 := by
  have h5 : natKey 5000 ≠ "" := natKey_ne_empty (by omega)
  simp [key_for, eNew, guidPart, entry_field, h5]

theorem not_mem_natKey_store {f : Nat → Nat} {N n : Nat} (h : N ≤ n) :
    natKey n ∉ keys ((List.range N).map (fun i => (natKey i, f i))) := by
  simp only [keys, List.map_map, List.mem_map, List.mem_range, Function.comp]
  rintro ⟨i, hi, hk⟩
  have h2 := natKey_inj hk
  omega

theorem passes_eNew : passes_filters defaultConfig det0 eNew = .ok true := by rfl

theorem notify_eNew : notifyResult orTrue eNew = .ok true := by rfl

theorem capStore_len : capStore.length = 2000 := by simp [capStore]

theorem capStore_ts : ∀ p ∈ capStore, p.2 < 2000 := by
  intro p hp
  simp only [capStore, List.mem_map, List.mem_range] at hp
  obtain ⟨i, hi, rfl⟩ := hp
  simpa using hi

theorem bigStore_len : bigStore.length = 2000 := by simp [bigStore]

theorem bigStore_ts : ∀ p ∈ bigStore, 0 < p.2 := by
  intro p hp
  simp only [bigStore, List.mem_map, List.mem_range] at hp
  obtain ⟨i, hi, rfl⟩ := hp
  simp
  omega

theorem overStore_len : overStore.length = 2001 := by simp [overStore]

theorem key_for_eNew_ne : key_for eNew ≠ "" := by
  rw [key_for_eNew]
  exact natKey_ne_empty (by omega)

theorem key_for_eNew_cap : key_for eNew ∉ keys capStore := by
  rw [key_for_eNew]
  exact not_mem_natKey_store (by omega)

theorem key_for_eNew_big : key_for eNew ∉ keys bigStore := by
  rw [key_for_eNew]
  exact not_mem_natKey_store (by omega)

/-! The claims. -/

/-- C1, counterexample: with the store exactly at the 2000-key ceiling
and one fresh accepted entry arriving, the cycle does NOT leave the
store at the ceiling: the prune cuts it to 1200 keys.  The claim fails
as stated at this input. -/
theorem c1_counterexample :
    (fetch_new defaultConfig det0 orTrue [eNew] capStore 2000).seen.length ≠ 2000 := by
  have h := at_capacity defaultConfig det0 orTrue
    capStore_len capStore_ts key_for_eNew_ne key_for_eNew_cap passes_eNew notify_eNew
  rw [h]
  rw [List.length_cons, List.length_take, sortDesc_length, capStore_len]
  omega

/-- C1, amended: if the SeenStore holds exactly the configured ceiling
of keys (2000, all recorded before the current clock) and one cycle
records one fresh, accepted entry, then after that cycle the store size
equals the configured retention size 1200 (the prune fires at 2001 keys
and keeps the newest 1200), and the new key is present. -/
theorem c1_store_bound_amended {cfg : FilterConfig} {det : Entry → Bool × Bool}
    {oracle : Entry → Bool} {e : Entry} {seen : List (String × Nat)} {clock : Nat} {b : Bool}
    (h2000 : seen.length = 2000) (hts : ∀ p ∈ seen, p.2 < clock)
    (hk : key_for e ≠ "") (hm : key_for e ∉ keys seen)
    (hf : passes_filters cfg det e = .ok true) (hn : notifyResult oracle e = .ok b) :
    (fetch_new cfg det oracle [e] seen clock).seen.length = 1200
    ∧ key_for e ∈ keys (fetch_new cfg det oracle [e] seen clock).seen := by
  have h := at_capacity cfg det oracle h2000 hts hk hm hf hn
  rw [h]
  constructor
  · rw [List.length_cons, List.length_take, sortDesc_length, h2000]
    omega
  · simp [keys]

/-- C1, witness: the amended theorem at a concrete store of 2000 keys. -/
theorem c1_witness :
    (fetch_new defaultConfig det0 orTrue [eNew] capStore 2000).seen.length = 1200
    ∧ key_for eNew ∈ keys (fetch_new defaultConfig det0 orTrue [eNew] capStore 2000).seen :=
  c1_store_bound_amended capStore_len capStore_ts key_for_eNew_ne key_for_eNew_cap
    passes_eNew notify_eNew

/-- C2, counterexample: a feed listing its entries oldest-first (publish
times 1, 2, 3 in listing order; title length doubles as the time
measure) is dispatched newest-first (3, 2, 1): `fetch_new` only reverses
the feed listing, it does not sort by publish time, so chronological
dispatch is not guaranteed for arbitrary listing orders. -/
theorem c2_counterexample :
    (fetch_new defaultConfig det0 orTrue [eA, eB, eC] [] 0).sent = [eC, eB, eA]
    ∧ ¬ ((fetch_new defaultConfig det0 orTrue [eA, eB, eC] [] 0).sent).Pairwise
        (fun a b => (titleOf a).length < (titleOf b).length) := by
  constructor
  · rfl
  · decide

/-- C2, amended: the dispatch sequence of a cycle is a sublist of the
reversed feed listing, so whenever the feed lists entries newest-first
(publish times strictly decreasing in listing order, i.e. strictly
increasing after reversal), notifications go out in increasing
publish-time order; the order is not restored for other listing
orders. -/
theorem c2_order_amended (cfg : FilterConfig) (det : Entry → Bool × Bool)
    (oracle : Entry → Bool) (entries : List Entry) (seen : List (String × Nat)) (clock : Nat)
    (ts : Entry → Nat)
    (h : entries.reverse.Pairwise (fun a b => ts a < ts b)) :
    ((fetch_new cfg det oracle entries seen clock).sent).Pairwise
      (fun a b => ts a < ts b) := by
  have hsub : List.Sublist ((entries.reverse.foldl (processEntry cfg det oracle)
      (initState seen clock)).sent) entries.reverse := by
    have h2 := foldl_sent_sub cfg det oracle entries.reverse (initState seen clock)
    simpa [initState] using h2
  have hsent : (fetch_new cfg det oracle entries seen clock).sent
      = (entries.reverse.foldl (processEntry cfg det oracle) (initState seen clock)).sent :=
    afterLoop_sent _
  rw [hsent]
  exact h.sublist hsub

/-- C2, witness: a newest-first listing is dispatched oldest-first. -/
theorem c2_witness :
    ((fetch_new defaultConfig det0 orTrue [eC, eB, eA] [] 0).sent).Pairwise
      (fun a b => (titleOf a).length < (titleOf b).length) :=
  c2_order_amended defaultConfig det0 orTrue [eC, eB, eA] [] 0
    (fun e => (titleOf e).length) (by decide)

/-- C3, counterexample: the feed lists the accepted entry eG before
eBadS, whose seeders string is non-numeric.  The loop runs in reverse
listing order, so eBadS is processed first; the `int()` ValueError in
`passes_filters` is raised outside the try block and aborts the cycle:
nothing is dispatched, although eG alone would have been (third
conjunct).  The failure is not isolated to the failing entry. -/
theorem c3_counterexample :
    (fetch_new defaultConfig det0 orTrue [eG, eBadS] [] 0).sent = []
    ∧ (fetch_new defaultConfig det0 orTrue [eG, eBadS] [] 0).aborted = true
    ∧ (fetch_new defaultConfig det0 orTrue [eG] [] 0).sent = [eG] :=
  ⟨rfl, rfl, rfl⟩

/-- C3, amended: only a failure raised while dispatching an entry
(the `notify` call) is isolated to that entry — the loop continues from
an unchanged state (first conjunct).  A failure raised while evaluating
an entry's filters (e.g. a non-numeric seeder count) escapes the
per-entry try block and aborts the cycle: the remaining entries are not
processed (second conjunct). -/
theorem c3_isolation_amended (cfg : FilterConfig) (det : Entry → Bool × Bool)
    (oracle : Entry → Bool) (s : CycleState) (ys : List Entry) (e1 e2 : Entry)
    (h0 : s.aborted = false)
    (hk1 : key_for e1 ≠ "") (hs1 : key_for e1 ∉ keys s.seen)
    (hf1 : passes_filters cfg det e1 = .ok true) (hh1 : infohashOf e1 ≠ "")
    (ho1 : oracle e1 = false)
    (hk2 : key_for e2 ≠ "") (hs2 : key_for e2 ∉ keys s.seen)
    (hf2 : passes_filters cfg det e2 = .error ()) :
    (e1 :: ys).foldl (processEntry cfg det oracle) s
      = ys.foldl (processEntry cfg det oracle) s
    ∧ (e2 :: ys).foldl (processEntry cfg det oracle) s = { s with aborted := true } := by
  constructor
  · rw [List.foldl_cons, step_notify_err h0 hk1 hs1 hf1 (by simp [notifyResult, hh1, ho1])]
  · rw [List.foldl_cons, step_filter_err h0 hk2 hs2 hf2, foldl_of_aborted rfl]

/-- C3, witness: with every send failing, the loop over eG then eA
equals the loop over eA alone; the loop over eBadS then eA aborts
immediately. -/
theorem c3_witness :
    ([eG, eA].foldl (processEntry defaultConfig det0 orFalse) (initState [] 0)
      = [eA].foldl (processEntry defaultConfig det0 orFalse) (initState [] 0))
    ∧ ([eBadS, eA].foldl (processEntry defaultConfig det0 orFalse) (initState [] 0)
      = { initState [] 0 with aborted := true }) :=
  c3_isolation_amended defaultConfig det0 orFalse (initState [] 0) [eA] eG eBadS rfl
    (by decide) (by decide) rfl (by decide) rfl (by decide) (by decide) rfl

/-- C4: per-entry dispatch bookkeeping.  For an unseen entry that passes
the filters and has an infohash: if the send fails, the iteration leaves
the state unchanged, so in particular the key is not marked seen and the
entry is retried when it shows up again; if the send succeeds, the seen
dict handed to the remaining iterations (second conjunct, by the shape
of the fold) already carries the key at the current clock. -/
theorem c4_dispatch_marks (cfg : FilterConfig) (det : Entry → Bool × Bool)
    (oracle : Entry → Bool) (s : CycleState) (e : Entry) (ys : List Entry)
    (h0 : s.aborted = false) (hk : key_for e ≠ "") (hm : key_for e ∉ keys s.seen)
    (hf : passes_filters cfg det e = .ok true) (hh : infohashOf e ≠ "") :
    (oracle e = false → processEntry cfg det oracle s e = s
      ∧ key_for e ∉ keys (processEntry cfg det oracle s e).seen)
    ∧ (oracle e = true →
        (processEntry cfg det oracle s e).seen = s.seen ++ [(key_for e, s.clock)]
      ∧ (e :: ys).foldl (processEntry cfg det oracle) s
          = ys.foldl (processEntry cfg det oracle) (processEntry cfg det oracle s e)) := by
  constructor
  · intro ho
    have hn : notifyResult oracle e = .error () := by simp [notifyResult, hh, ho]
    have hr := step_notify_err h0 hk hm hf hn
    exact ⟨hr, by rw [hr]; exact hm⟩
  · intro ho
    have hn : notifyResult oracle e = .ok true := by simp [notifyResult, hh, ho]
    have hr := step_record h0 hk hm hf hn
    exact ⟨by rw [hr]; rfl, rfl⟩

/-- C4, witness: at a concrete entry, a failing send leaves the store
empty; a succeeding send records the key at clock 0. -/
theorem c4_witness :
    (processEntry defaultConfig det0 orFalse (initState [] 0) eG = initState [] 0)
    ∧ (processEntry defaultConfig det0 orTrue (initState [] 0) eG).seen
        = (initState [] 0).seen ++ [(key_for eG, (initState [] 0).clock)] :=
  ⟨((c4_dispatch_marks defaultConfig det0 orFalse (initState [] 0) eG [] rfl (by decide)
      (by decide) rfl (by decide)).1 rfl).1,
   ((c4_dispatch_marks defaultConfig det0 orTrue (initState [] 0) eG [] rfl (by decide)
      (by decide) rfl (by decide)).2 rfl).1⟩

/-- C5, amended: replaying the same feed content right after a pass in
which every dispatch succeeded produces zero notifications, provided the
first pass cannot overflow the 2000-key prune threshold (store size plus
feed size at most 2000).  Without that proviso the prune may evict keys
belonging to current feed entries and the replay re-notifies them (see
the counterexample). -/
theorem c5_idempotent_amended (cfg : FilterConfig) (det : Entry → Bool × Bool)
    (entries : List Entry) (seen : List (String × Nat)) (clock : Nat)
    (h : seen.length + entries.length ≤ 2000) :
    (fetch_new cfg det orTrue entries
        (fetch_new cfg det orTrue entries seen clock).seen
        (fetch_new cfg det orTrue entries seen clock).clock).sent = [] := by
  have hlen : (entries.reverse.foldl (processEntry cfg det orTrue)
      (initState seen clock)).seen.length ≤ 2000 := by
    have h2 := foldl_len cfg det orTrue entries.reverse (initState seen clock)
    have h3 : (initState seen clock).seen.length = seen.length := rfl
    rw [List.length_reverse] at h2
    omega
  have hfix : fetch_new cfg det orTrue entries seen clock
      = entries.reverse.foldl (processEntry cfg det orTrue) (initState seen clock) := by
    unfold fetch_new
    exact afterLoop_no_prune hlen
  rw [hfix]
  unfold fetch_new
  rw [afterLoop_sent]
  exact pass2_silent cfg det entries.reverse (initState seen clock) _ rfl rfl
    (fun k => Iff.rfl)

/-- C5, witness: a two-pass run over one accepted entry from an empty
store sends nothing on the second pass. -/
theorem c5_witness :
    (fetch_new defaultConfig det0 orTrue [eG]
        (fetch_new defaultConfig det0 orTrue [eG] [] 0).seen
        (fetch_new defaultConfig det0 orTrue [eG] [] 0).clock).sent = [] :=
  c5_idempotent_amended defaultConfig det0 [eG] [] 0 (by decide)

/-- A cycle over one fresh accepted entry against a store of exactly
2000 keys, all of them strictly newer than the clock: the store
overflows, and the prune drops exactly the fresh key (the oldest). -/
theorem at_capacity_min (cfg : FilterConfig) (det : Entry → Bool × Bool) (oracle : Entry → Bool)
    {e : Entry} {seen : List (String × Nat)} {clock : Nat} {b : Bool}
    (h2000 : seen.length = 2000) (hts : ∀ p ∈ seen, clock < p.2)
    (hk : key_for e ≠ "") (hm : key_for e ∉ keys seen)
    (hf : passes_filters cfg det e = .ok true) (hn : notifyResult oracle e = .ok b) :
    (fetch_new cfg det oracle [e] seen clock).seen = (sortDesc seen).take 1200 := by
  unfold fetch_new
  rw [show ([e] : List Entry).reverse = [e] from rfl]
  rw [run_single hk hm hf hn]
  rw [afterLoop_prune rfl (by
    show (seen ++ [(key_for e, clock)]).length > 2000
    rw [List.length_append, h2000, List.length_singleton]
    omega)]
  show pruneSeen (seen ++ [(key_for e, clock)]) = _
  unfold pruneSeen
  rw [sortDesc_append_min (x := (key_for e, clock)) hts]
  exact List.take_append_of_le_length (by rw [sortDesc_length, h2000]; omega)

/-- A cycle over one fresh accepted entry against a store small enough
not to prune: the key is recorded, nothing else happens. -/
theorem single_no_prune {cfg : FilterConfig} {det : Entry → Bool × Bool} {oracle : Entry → Bool}
    {e : Entry} {seen : List (String × Nat)} {clock : Nat} {b : Bool}
    (hlen : seen.length + 1 ≤ 2000)
    (hk : key_for e ≠ "") (hm : key_for e ∉ keys seen)
    (hf : passes_filters cfg det e = .ok true) (hn : notifyResult oracle e = .ok b) :
    fetch_new cfg det oracle [e] seen clock
      = { seen := seen ++ [(key_for e, clock)], clock := clock + 1,
          sent := if b then [e] else [], newCount := 1, aborted := false } := by
  unfold fetch_new
  rw [show ([e] : List Entry).reverse = [e] from rfl]
  rw [run_single hk hm hf hn]
  exact afterLoop_no_prune (by
    show (seen ++ [(key_for e, clock)]).length ≤ 2000
    rw [List.length_append, List.length_singleton]
    omega)

/-- The fresh key is absent from the pruned big store. -/
theorem key_for_eNew_pruned : key_for eNew ∉ keys ((sortDesc bigStore).take 1200) := by
  intro hc
  rw [key_for_eNew] at hc
  simp only [keys, List.mem_map] at hc
  obtain ⟨p, hp, hpk⟩ := hc
  have hp2 : p ∈ bigStore := mem_sortDesc.mp (List.take_subset _ _ hp)
  simp only [bigStore, List.mem_map, List.mem_range] at hp2
  obtain ⟨i, hi, rfl⟩ := hp2
  have h2 := natKey_inj hpk
  omega

/-- C5, counterexample: idempotence breaks when the first pass triggers
the prune.  The store holds 2000 keys whose timestamps all exceed the
clock (the seen file is external input, so such stores are reachable);
the fresh entry eNew is dispatched and recorded with the oldest
timestamp, the prune evicts exactly this key, and replaying the same
one-entry feed immediately afterwards dispatches eNew again: the second
pass produces one notification, not zero, although every dispatch of the
first pass succeeded. -/
theorem c5_counterexample :
    (fetch_new defaultConfig det0 orTrue [eNew]
        (fetch_new defaultConfig det0 orTrue [eNew] bigStore 0).seen
        (fetch_new defaultConfig det0 orTrue [eNew] bigStore 0).clock).sent = [eNew] := by
  have h1 := at_capacity_min defaultConfig det0 orTrue
    bigStore_len bigStore_ts key_for_eNew_ne key_for_eNew_big passes_eNew notify_eNew
  have hlen2 : ((sortDesc bigStore).take 1200).length + 1 ≤ 2000 := by
    rw [List.length_take, sortDesc_length, bigStore_len]
    omega
  rw [h1]
  rw [single_no_prune hlen2 key_for_eNew_ne key_for_eNew_pruned passes_eNew notify_eNew]
  rfl

/-- C6, counterexample: an entry with no id and no guid but with a link
and an infohash gets the link as its dedup key, not the infohash: the
source falls back from id to guid to link before ever considering the
infohash, which the claim omits. -/
theorem c6_counterexample :
    key_for eLink = "https://x/page" ∧ key_for eLink ≠ "deadbeef" := by
  constructor
  · rfl
  · decide

/-- C6, amended: the dedup key is the feed id when present and nonempty;
when the id is absent, the guid when present and nonempty; when both are
absent, the link when present and nonempty; when that whole guid chain
yields the empty string, the infohash when nonempty; and otherwise
title + "|" + published. -/
theorem c6_key_chain_amended (e : Entry) :
    (∀ s, e.id = some s → s ≠ "" → key_for e = s)
    ∧ (∀ s, e.id = none → e.guid = some s → s ≠ "" → key_for e = s)
    ∧ (∀ s, e.id = none → e.guid = none → e.link = some s → s ≠ "" → key_for e = s)
    ∧ (∀ h, guidPart e = "" → e.nyaa_infohash = some h → h ≠ "" → key_for e = h)
    ∧ (guidPart e = "" → infohashOf e = "" →
        key_for e = titleOf e ++ "|" ++ publishedOf e) := by
  refine ⟨?_, ?_, ?_, ?_, ?_⟩
  · intro s h1 h2
    simp [key_for, guidPart, entry_field, h1, h2]
  · intro s h0 h1 h2
    simp [key_for, guidPart, entry_field, h0, h1, h2]
  · intro s h0 h1 h2 h3
    simp [key_for, guidPart, entry_field, h0, h1, h2, h3]
  · intro h hg h1 h2
    have hi : infohashOf e = h := by simp [infohashOf, strField, entry_field, h1]
    simp [key_for, hg, hi, h2]
  · intro hg hi
    simp [key_for, hg, hi]

/-- C6, witness: the amended chain at a concrete entry carrying an id. -/
theorem c6_witness : key_for eIdW = "gid123" :=
  (c6_key_chain_amended eIdW).1 "gid123" rfl (by decide)

/-- C7: an entry without an infohash is never dispatched, whatever its
other fields, the filter configuration, the transport oracle, the rest
of the feed and the store: `notify` returns before sending when the
infohash is empty. -/
theorem c7_no_hash_never_sent (cfg : FilterConfig) (det : Entry → Bool × Bool)
    (oracle : Entry → Bool) (entries : List Entry) (seen : List (String × Nat))
    (clock : Nat) (e : Entry) (h : infohashOf e = "") :
    e ∉ (fetch_new cfg det oracle entries seen clock).sent := by
  intro hc
  unfold fetch_new at hc
  rw [afterLoop_sent] at hc
  rcases foldl_sent_hash entries.reverse (initState seen clock) e hc with h1 | h1
  · simp [initState] at h1
  · exact h1 h

/-- C7, witness: the infohash-less entry is not dispatched even when it
is the only feed entry, unseen and accepted. -/
theorem c7_witness : eNoHash ∉ (fetch_new defaultConfig det0 orTrue [eNoHash] [] 0).sent :=
  c7_no_hash_never_sent defaultConfig det0 orTrue [eNoHash] [] 0 eNoHash rfl

/-- C8, counterexample: pruning is not conditioned on new keys.  A cycle
over an empty feed records nothing (`new_count = 0`), yet because the
store loaded from the seen file holds 2001 keys the prune still fires
and the in-memory store contents change.  Only persistence is guarded by
the new-key count. -/
theorem c8_counterexample :
    (fetch_new defaultConfig det0 orTrue [] overStore 0).newCount = 0
    ∧ (fetch_new defaultConfig det0 orTrue [] overStore 0).seen ≠ overStore := by
  have h0 : fetch_new defaultConfig det0 orTrue [] overStore 0
      = afterLoop (initState overStore 0) := rfl
  have hab : (initState overStore 0).aborted = false := rfl
  have hgt : (initState overStore 0).seen.length > 2000 := by
    rw [initState_seen, overStore_len]
    omega
  constructor
  · rw [h0, afterLoop_newCount, initState_newCount]
  · rw [h0, afterLoop_prune hab hgt]
    intro hc
    rw [setSeen_seen, initState_seen] at hc
    have h2 := congrArg List.length hc
    unfold pruneSeen at h2
    rw [List.length_take, sortDesc_length, overStore_len] at h2
    omega

/-- C8, amended: after a steady-state cycle the store is persisted only
if at least one new key was recorded, and a cycle that records no new
key leaves the store contents unchanged provided the store was within
the 2000-key prune threshold; an oversized store (as loaded from an
oversized seen file) is pruned even by a cycle that records nothing. -/
theorem c8_persist_amended (cfg : FilterConfig) (det : Entry → Bool × Bool)
    (oracle : Entry → Bool) (entries : List Entry) (seen : List (String × Nat)) (clock : Nat)
    (hc : (fetch_new cfg det oracle entries seen clock).newCount = 0)
    (hlen : seen.length ≤ 2000) :
    (fetch_new cfg det oracle entries seen clock).seen = seen
    ∧ persistsAfter (fetch_new cfg det oracle entries seen clock) = false := by
  have hc0 := hc
  unfold fetch_new at hc
  rw [afterLoop_newCount] at hc
  have hseen := foldl_count_eq_seen entries.reverse (initState seen clock) hc
  constructor
  · unfold fetch_new
    rw [afterLoop_no_prune (by rw [hseen]; exact hlen)]
    exact hseen
  · simp [persistsAfter, hc0]

/-- C8, witness: a no-news cycle over a one-key store keeps the store
and skips persistence. -/
theorem c8_witness :
    (fetch_new defaultConfig det0 orTrue [] [("k", 5)] 0).seen = [("k", 5)]
    ∧ persistsAfter (fetch_new defaultConfig det0 orTrue [] [("k", 5)] 0) = false :=
  c8_persist_amended defaultConfig det0 orTrue [] [("k", 5)] 0 rfl (by decide)

/-- C9, counterexample: with no filter configured the chain still does
not accept every entry: a seeders string parsing to a negative number is
rejected by the `seeders < MIN_SEEDERS` comparison even at the default
MIN_SEEDERS = 0, and a non-numeric seeders string raises instead of
accepting. -/
theorem c9_counterexample :
    passes_filters defaultConfig det0 eNeg = .ok false
    ∧ passes_filters defaultConfig det0 eBadS = .error () :=
  ⟨rfl, rfl⟩

/-- C9, amended: with no filter configured the chain accepts every entry
whose seeders field parses to a nonnegative integer (absent and empty
fields parse to 0); entries with negative parsed seeders are rejected
and non-numeric seeders raise. -/
theorem c9_default_accepts_amended (det : Entry → Bool × Bool) (e : Entry) :
    (∀ n, seedersOf e = .ok n → 0 ≤ n → passes_filters defaultConfig det e = .ok true)
    ∧ (seedersOf e = .error () → passes_filters defaultConfig det e = .error ()) := by
  constructor
  · intro n h hn
    have hlt : ¬ n < (0 : Int) := by omega
    simp [passes_filters, defaultConfig, h, hlt]
  · intro h
    simp [passes_filters, defaultConfig, h]

/-- C9, witness: the all-off configuration accepts a concrete entry with
seven seeders. -/
theorem c9_witness : passes_filters defaultConfig det0 eSeven = .ok true :=
  (c9_default_accepts_amended det0 eSeven).1 7 rfl (by decide)

/-- C10: an unseen entry that passes the filters but lacks an infohash
is not dispatched (the sent list does not change), yet its key is
recorded in the seen dict at the current clock, and any later iteration
of any cycle whose state carries that key skips the entry entirely: the
entry is suppressed without ever producing a notification. -/
theorem c10_nohash_marked (cfg : FilterConfig) (det : Entry → Bool × Bool)
    (oracle : Entry → Bool) (s : CycleState) (e : Entry)
    (h0 : s.aborted = false) (hk : key_for e ≠ "") (hm : key_for e ∉ keys s.seen)
    (hf : passes_filters cfg det e = .ok true) (hh : infohashOf e = "") :
    (processEntry cfg det oracle s e).sent = s.sent
    ∧ (processEntry cfg det oracle s e).seen = s.seen ++ [(key_for e, s.clock)]
    ∧ (∀ t : CycleState, t.aborted = false → key_for e ∈ keys t.seen →
        processEntry cfg det oracle t e = t) := by
  have hn : notifyResult oracle e = .ok false := by simp [notifyResult, hh]
  have hr := step_record h0 hk hm hf hn
  refine ⟨?_, ?_, ?_⟩
  · rw [hr]
    simp [recordState]
  · rw [hr]
    rfl
  · intro t ht hmt
    exact step_skip_seen ht hmt

/-- C10, witness: the infohash-less entry eNoHash is marked seen at
clock 0 without being dispatched, and is skipped once marked. -/
theorem c10_witness :
    (processEntry defaultConfig det0 orTrue (initState [] 0) eNoHash).sent = []
    ∧ (processEntry defaultConfig det0 orTrue (initState [] 0) eNoHash).seen
        = [] ++ [(key_for eNoHash, 0)] := by
  have h := c10_nohash_marked defaultConfig det0 orTrue (initState [] 0) eNoHash rfl
    (by decide) (by decide) rfl rfl
  exact ⟨h.1, h.2.1⟩
